import Mathlib

/-!
Shallow embedding of the memory relevance ranker
`getRelevantMemories` from `src/services/geminiService.ts`.

Strings are modelled as Lean `String`; scores are modelled as `ℚ`
(the JavaScript arithmetic `word.length * 2`, `1 + matchCount * 0.2`,
`(index / memories.length) * 5` is exact rational arithmetic at every
value reachable in the claims, so `ℚ` is a faithful model of the
number type).  JavaScript's `Array.prototype.sort` is a stable sort;
with the comparator `(a, b) => b.score - a.score` its observable
result is the unique stable descending-by-score permutation, which is
realised here by `List.insertionSort` with the non-strict relation
`fun a b => b.2 ≤ a.2` (an element is inserted before the first
element it is ≥, so earlier elements precede later ones on ties).
-/

/-- ASCII word character, the `\w` class of the JavaScript regex
`/[^\w\s]/g` (the regex has no unicode flag, so `\w` is exactly
`[A-Za-z0-9_]`). -/
def isWordChar (c : Char) : Bool :=
  ('a' ≤ c && c ≤ 'z') || ('A' ≤ c && c ≤ 'Z') || ('0' ≤ c && c ≤ '9') || c = '_'

/-- Whitespace, the `\s` class of the JavaScript regexes, restricted to
the ASCII range (the claims only exercise ASCII input). -/
def isWsChar (c : Char) : Bool :=
  c = ' ' || c = '\t' || c = '\n' || c = '\x0d' || c = '\x0b' || c = '\x0c'

/-- `s.toLowerCase()` on the ASCII fragment. -/
def lowerStr (s : String) : String :=
  String.mk (s.toList.map Char.toLower)

/-- `s.replace(/[^\w\s]/g, '')`: delete every character that is neither
a word character nor whitespace. -/
def stripNonWordStr (s : String) : String :=
  String.mk (s.toList.filter (fun c => isWordChar c || isWsChar c))

/-- Splitting helper for `s.split(/\s+/)`: walks the character list,
emitting the field accumulated so far (`acc`, reversed) at each maximal
whitespace run.  A run collapses (consecutive whitespace yields no empty
fields inside the run), but a leading or trailing run still produces an
empty boundary field, exactly as the JavaScript `split` does. -/
def splitWsAux : List Char → List Char → List (List Char)
  | [], acc => [acc.reverse]
  | [c], acc => if isWsChar c then [acc.reverse, []] else [(c :: acc).reverse]
  | c :: c2 :: cs, acc =>
    if isWsChar c then
      if isWsChar c2 then splitWsAux (c2 :: cs) acc
      else acc.reverse :: splitWsAux (c2 :: cs) []
    else splitWsAux (c2 :: cs) (c :: acc)

/-- `s.split(/\s+/)`. -/
def splitWs (s : String) : List String :=
  (splitWsAux s.toList []).map String.mk

/-- The hardcoded stop-word set of the source. -/
def stopWords : List String :=
  ["the", "and", "for", "with", "that", "this", "from", "have", "what",
   "where", "when", "how", "who", "your", "mine", "about", "some", "they", "them"]

/-- `query.toLowerCase().replace(/[^\w\s]/g, '').split(/\s+/)
  .filter(w => w.length > 2 && !stopWords.has(w))`. -/
def tokenizeQuery (query : String) : List String :=
  (splitWs (stripNonWordStr (lowerStr query))).filter
    (fun w => 2 < w.length && !(stopWords.contains w))

/-- `memoryLower.replace(/[^\w\s]/g, '').split(/\s+/)`, the token list of
one memory (not stop-word filtered, not length filtered). -/
def memoryWordsOf (memory : String) : List String :=
  splitWs (stripNonWordStr (lowerStr memory))

/-- Does the character list `l` start with `sub`? -/
def startsWithChars : List Char → List Char → Bool
  | [], _ => true
  | _ :: _, [] => false
  | a :: as, b :: bs => a = b && startsWithChars as bs

/-- Does the character list `l` contain `sub` as a contiguous run? -/
def containsSub : List Char → List Char → Bool
  | sub, [] => sub.isEmpty
  | sub, c :: cs => startsWithChars sub (c :: cs) || containsSub sub cs

/-- `s.includes(sub)`: substring containment. -/
def strIncludes (s sub : String) : Bool :=
  containsSub sub.toList s.toList

/-- Body of the `queryWords.forEach` loop: exact-match boost
(`score += word.length * 2`), else partial match (`score += word.length`),
else nothing; `matchCount` counts the matching iterations. -/
def scoreStep (memoryLower : String) (memoryWords : List String)
    (acc : ℚ × Nat) (word : String) : ℚ × Nat :=
  if memoryWords.contains word then (acc.1 + (word.length : ℚ) * 2, acc.2 + 1)
  else if strIncludes memoryLower word then (acc.1 + (word.length : ℚ), acc.2 + 1)
  else acc

/-- The `forEach` loop run over all query words, from
`score = 0, matchCount = 0`. -/
def scoreLoop (queryWords : List String) (memory : String) : ℚ × Nat :=
  queryWords.foldl (scoreStep (lowerStr memory) (memoryWordsOf memory)) (0, 0)

/-- The lexical part of a memory's score: the loop total with the
density boost `score *= (1 + matchCount * 0.2)` applied when
`matchCount > 1`. -/
def lexicalScore (queryWords : List String) (memory : String) : ℚ :=
  if 1 < (scoreLoop queryWords memory).2 then
    (scoreLoop queryWords memory).1 * (1 + ((scoreLoop queryWords memory).2 : ℚ) * (0.2 : ℚ))
  else (scoreLoop queryWords memory).1

/-- Full score of the memory at `index` out of `n`:
lexical part plus the recency factor `(index / memories.length) * 5`. -/
def scoreMemory (queryWords : List String) (memory : String) (index n : Nat) : ℚ :=
  lexicalScore queryWords memory + ((index : ℚ) / (n : ℚ)) * 5

/-- `memories.map((memory, index) => ({memory, score}))`. -/
def scoredMemories (queryWords : List String) (memories : List String) :
    List (String × ℚ) :=
  memories.enum.map (fun p => (p.2, scoreMemory queryWords p.2 p.1 memories.length))

/-- `scoredMemories.sort((a, b) => b.score - a.score)` (stable descending
sort) followed by `.filter(m => m.score > 5).map(m => m.memory)`. -/
def relevantOfScored (scored : List (String × ℚ)) : List String :=
  ((scored.insertionSort (fun a b => b.2 ≤ a.2)).filter
    (fun m => 5 < m.2)).map (fun m => m.1)

/-- The `relevant` list of the source for a given query-token list. -/
def relevantList (queryWords : List String) (memories : List String) : List String :=
  relevantOfScored (scoredMemories queryWords memories)

/-- `l.slice(start)` for a single (possibly negative) JavaScript index. -/
def jsSliceFrom {α : Type} (l : List α) (start : Int) : List α :=
  if start < 0 then l.drop (max ((l.length : Int) + start) 0).toNat
  else l.drop (min start (l.length : Int)).toNat

/-- `l.slice(0, stop)` for a (possibly negative) JavaScript end index. -/
def jsSliceZeroTo {α : Type} (l : List α) (stop : Int) : List α :=
  if stop < 0 then l.take (max ((l.length : Int) + stop) 0).toNat
  else l.take (min stop (l.length : Int)).toNat

/-- `getRelevantMemories(query, memories, limit)` from
`src/services/geminiService.ts` (the `let`-bound intermediate values of
the source are the named definitions above). -/
def getRelevantMemories (query : String) (memories : List String) (limit : Int) :
    List String :=
  if memories.length = 0 then []
  else if (tokenizeQuery query).length = 0 then jsSliceFrom memories (-limit)
  else if 0 < (relevantList (tokenizeQuery query) memories).length then
    jsSliceZeroTo (relevantList (tokenizeQuery query) memories) limit
  else jsSliceFrom memories (-3)

/-!
Declarative (specification-style) restatement of the scoring rule, used
to compare the imperative accumulation of the source against the spec's
words: a per-token contribution, a per-token match test, and their
sum/count over the query tokens.
-/

/-- Does the query token `w` match the memory `m`, either as an exact
element of the memory's token list or as a substring of the lowercased
memory text? -/
def tokenMatches (m w : String) : Bool :=
  (memoryWordsOf m).contains w || strIncludes (lowerStr m) w

/-- Contribution of one query token to the (pre-bonus) lexical score:
`2 * len(w)` on an exact token match, else `len(w)` on a substring
match, else `0` (the branches are mutually exclusive by the `else`). -/
def specContribution (m : String) (w : String) : ℚ :=
  if (memoryWordsOf m).contains w then (w.length : ℚ) * 2
  else if strIncludes (lowerStr m) w then (w.length : ℚ)
  else 0

/-- The pre-bonus lexical score as a sum over the query tokens. -/
def specLexScore (queryWords : List String) (m : String) : ℚ :=
  (queryWords.map (specContribution m)).sum

/-- The number of matching query tokens, counted with multiplicity. -/
def specMatchCount (queryWords : List String) (m : String) : Nat :=
  (queryWords.filter (tokenMatches m)).length

/-!
A fault-checked variant of the ranker: the only partial operation of the
source is the division `index / memories.length` in the recency factor,
so the checked variant routes exactly that division through `Option`
(`none` models a fault).  The totality claim is that the checked
variant always returns `some` of the original result.
-/

/-- Division that faults (`none`) on a zero divisor. -/
def divChecked (a b : ℚ) : Option ℚ :=
  if b = 0 then none else some (a / b)

/-- `scoreMemory` with its division checked. -/
def scoreMemoryChecked (queryWords : List String) (memory : String) (index n : Nat) :
    Option ℚ :=
  Option.map (fun r => lexicalScore queryWords memory + r * 5)
    (divChecked (index : ℚ) (n : ℚ))

/-- Evaluate `f` over a list, faulting if any element faults. -/
def mapOrNone {α β : Type} (f : α → Option β) : List α → Option (List β)
  | [] => some []
  | x :: xs =>
    match f x, mapOrNone f xs with
    | some y, some ys => some (y :: ys)
    | _, _ => none

/-- `getRelevantMemories` with every division checked. -/
def getRelevantMemoriesChecked (query : String) (memories : List String) (limit : Int) :
    Option (List String) :=
  if memories.length = 0 then some []
  else if (tokenizeQuery query).length = 0 then some (jsSliceFrom memories (-limit))
  else
    match mapOrNone
        (fun p => Option.map (fun s => (p.2, s))
          (scoreMemoryChecked (tokenizeQuery query) p.2 p.1 memories.length))
        memories.enum with
    | none => none
    | some scored =>
      some (if 0 < (relevantOfScored scored).length then
              jsSliceZeroTo (relevantOfScored scored) limit
            else jsSliceFrom memories (-3))

/-!  Helper lemmas. -/

/-- The `forEach` accumulation, started from any accumulator, adds the
spec-style sum and match count. -/
theorem foldl_scoreStep (m : String) (qw : List String) :
    ∀ (s : ℚ) (c : Nat),
      qw.foldl (scoreStep (lowerStr m) (memoryWordsOf m)) (s, c) =
        (s + specLexScore qw m, c + specMatchCount qw m) := by
  induction qw with
  | nil => intro s c; simp [specLexScore, specMatchCount]
  | cons w ws ih =>
    intro s c
    rw [List.foldl_cons]
    by_cases h1 : w ∈ memoryWordsOf m
    · have hs : scoreStep (lowerStr m) (memoryWordsOf m) (s, c) w
          = (s + (w.length : ℚ) * 2, c + 1) := by
        simp [scoreStep, h1]
      have hl : specLexScore (w :: ws) m = (w.length : ℚ) * 2 + specLexScore ws m := by
        simp [specLexScore, specContribution, h1]
      have hc : specMatchCount (w :: ws) m = specMatchCount ws m + 1 := by
        simp [specMatchCount, tokenMatches, h1, List.filter_cons]
      rw [hs, ih, hl, hc]
      refine Prod.ext ?_ ?_
      · show s + (w.length : ℚ) * 2 + specLexScore ws m
            = s + ((w.length : ℚ) * 2 + specLexScore ws m)
        ring
      · show c + 1 + specMatchCount ws m = c + (specMatchCount ws m + 1)
        omega
    · by_cases h2 : strIncludes (lowerStr m) w = true
      · have hs : scoreStep (lowerStr m) (memoryWordsOf m) (s, c) w
            = (s + (w.length : ℚ), c + 1) := by
          simp [scoreStep, h1, h2]
        have hl : specLexScore (w :: ws) m = (w.length : ℚ) + specLexScore ws m := by
          simp [specLexScore, specContribution, h1, h2]
        have hc : specMatchCount (w :: ws) m = specMatchCount ws m + 1 := by
          simp [specMatchCount, tokenMatches, h1, h2, List.filter_cons]
        rw [hs, ih, hl, hc]
        refine Prod.ext ?_ ?_
        · show s + (w.length : ℚ) + specLexScore ws m
              = s + ((w.length : ℚ) + specLexScore ws m)
          ring
        · show c + 1 + specMatchCount ws m = c + (specMatchCount ws m + 1)
          omega
      · have hs : scoreStep (lowerStr m) (memoryWordsOf m) (s, c) w = (s, c) := by
          simp [scoreStep, h1, h2]
        have hl : specLexScore (w :: ws) m = specLexScore ws m := by
          simp [specLexScore, specContribution, h1, h2]
        have hc : specMatchCount (w :: ws) m = specMatchCount ws m := by
          simp [specMatchCount, tokenMatches, h1, h2, List.filter_cons]
        rw [hs, ih, hl, hc]

/-- The loop value is the spec-style (sum, count) pair. -/
theorem scoreLoop_eq (qw : List String) (m : String) :
    scoreLoop qw m = (specLexScore qw m, specMatchCount qw m) := by
  have h := foldl_scoreStep m qw 0 0
  simpa [scoreLoop] using h

/-- The lexical score is the spec-style sum with the density bonus
applied exactly when the (multiplicity-counted) match count exceeds 1. -/
theorem lexicalScore_eq (qw : List String) (m : String) :
    lexicalScore qw m =
      if 1 < specMatchCount qw m then
        specLexScore qw m * (1 + (specMatchCount qw m : ℚ) * (0.2 : ℚ))
      else specLexScore qw m := by
  unfold lexicalScore
  rw [scoreLoop_eq]

/-- Every per-token contribution is nonnegative, so the pre-bonus sum is. -/
theorem specLexScore_nonneg (qw : List String) (m : String) :
    0 ≤ specLexScore qw m := by
  unfold specLexScore
  apply List.sum_nonneg
  intro x hx
  obtain ⟨w, hw, rfl⟩ := List.mem_map.mp hx
  unfold specContribution
  split_ifs <;> positivity

/-- A nonzero pre-bonus sum exhibits a matching token. -/
theorem exists_match_of_specLexScore_ne_zero (qw : List String) (m : String)
    (h : specLexScore qw m ≠ 0) : ∃ w ∈ qw, tokenMatches m w = true := by
  by_contra hn
  push_neg at hn
  apply h
  unfold specLexScore
  apply List.sum_eq_zero
  intro x hx
  obtain ⟨w, hw, rfl⟩ := List.mem_map.mp hx
  have hb : tokenMatches m w = false := by
    cases hbb : tokenMatches m w
    · rfl
    · exact absurd hbb (hn w hw)
  unfold tokenMatches at hb
  rw [Bool.or_eq_false_iff] at hb
  have hb1 : w ∉ memoryWordsOf m := by simpa using hb.1
  have hb2 : strIncludes (lowerStr m) w = false := hb.2
  unfold specContribution
  rw [if_neg (by simp [hb1]), if_neg (by simp [hb2])]

/-- If the lexical part is zero so is the boosted lexical score. -/
theorem lexicalScore_eq_zero (qw : List String) (m : String)
    (h : specLexScore qw m = 0) : lexicalScore qw m = 0 := by
  rw [lexicalScore_eq, h]
  split_ifs
  · ring
  · rfl

/-- The recency factor of a position strictly inside the list is
strictly below `5`. -/
theorem recencyFactor_lt_five (i n : Nat) (h : i < n) :
    ((i : ℚ) / (n : ℚ)) * 5 < 5 := by
  have hn : (0 : ℚ) < (n : ℚ) := by
    exact_mod_cast Nat.pos_of_ne_zero (by omega)
  have h1 : (i : ℚ) / (n : ℚ) < 1 := by
    rw [div_lt_one hn]
    exact_mod_cast h
  linarith

/-- An element of `enumFrom k l` carries an index below `k + l.length`
and a value from `l`. -/
theorem enumFrom_mem_bound {α : Type} :
    ∀ (l : List α) (k : Nat) (p : Nat × α),
      p ∈ l.enumFrom k → p.1 < k + l.length ∧ p.2 ∈ l := by
  intro l
  induction l with
  | nil => intro k p hp; simp [List.enumFrom] at hp
  | cons x xs ih =>
    intro k p hp
    rw [List.enumFrom_cons] at hp
    rcases List.mem_cons.mp hp with h | h
    · subst h
      refine ⟨?_, List.mem_cons_self x xs⟩
      show k < k + (x :: xs).length
      simp only [List.length_cons]
      omega
    · have h2 := ih (k + 1) p h
      exact ⟨by simp only [List.length_cons]; omega, List.mem_cons_of_mem _ h2.2⟩

/-- A scored entry comes from some position of the memory list and
carries that position's score. -/
theorem mem_scoredMemories (qw : List String) (memories : List String)
    (p : String × ℚ) (hp : p ∈ scoredMemories qw memories) :
    p.1 ∈ memories ∧ ∃ i, i < memories.length ∧ p.2 = scoreMemory qw p.1 i memories.length := by
  unfold scoredMemories at hp
  obtain ⟨q, hq, rfl⟩ := List.mem_map.mp hp
  have hb := enumFrom_mem_bound memories 0 q (by simpa [List.enum] using hq)
  exact ⟨hb.2, q.1, by simpa using hb.1, rfl⟩

/-- A surfaced memory has a scored entry strictly above the threshold. -/
theorem mem_relevantList (qw : List String) (memories : List String)
    (m : String) (hm : m ∈ relevantList qw memories) :
    ∃ s : ℚ, (m, s) ∈ scoredMemories qw memories ∧ 5 < s := by
  unfold relevantList relevantOfScored at hm
  obtain ⟨p, hp, rfl⟩ := List.mem_map.mp hm
  have hpf := List.mem_filter.mp hp
  have hps : p ∈ scoredMemories qw memories := (List.mem_insertionSort _).mp hpf.1
  exact ⟨p.2, by simpa using hps, by simpa using hpf.2⟩

/-- Evaluating `f` never faults pointwise, so the traversal returns the
plain map. -/
theorem mapOrNone_eq_map {α β : Type} (f : α → Option β) (g : α → β) :
    ∀ (l : List α), (∀ x ∈ l, f x = some (g x)) → mapOrNone f l = some (l.map g) := by
  intro l
  induction l with
  | nil => intro _; rfl
  | cons x xs ih =>
    intro h
    unfold mapOrNone
    rw [h x (List.mem_cons_self x xs), ih (fun y hy => h y (List.mem_cons_of_mem x hy))]
    rfl

/-!  Concrete evaluations used by the claim theorems and witnesses.
(`Rat` arithmetic in Batteries is `@[irreducible]`, so the rational
steps go through `norm_num`; the string-level steps are decidable.) -/

theorem tokenize_widget : tokenizeQuery "widget" = ["widget"] := by decide

theorem scoreMemory_w1 : scoreMemory ["widget"] "widget one" 0 2 = 12 := by
  norm_num +decide [scoreMemory, lexicalScore, scoreLoop, scoreStep,
    show ("widget" : String).length = 6 from by decide]

theorem scoreMemory_w2 : scoreMemory ["widget"] "widget two" 1 2 = 29 / 2 := by
  norm_num +decide [scoreMemory, lexicalScore, scoreLoop, scoreStep,
    show ("widget" : String).length = 6 from by decide]

theorem scored_widget : scoredMemories ["widget"] ["widget one", "widget two"]
    = [("widget one", 12), ("widget two", 29 / 2)] := by
  unfold scoredMemories
  rw [show List.enum ["widget one", "widget two"] = [(0, "widget one"), (1, "widget two")]
    from by decide]
  rw [List.map_cons, List.map_cons, List.map_nil]
  rw [show (["widget one", "widget two"] : List String).length = 2 from by decide]
  rw [scoreMemory_w1, scoreMemory_w2]

theorem relevant_widget : relevantList (tokenizeQuery "widget") ["widget one", "widget two"]
    = ["widget two", "widget one"] := by
  rw [tokenize_widget]
  unfold relevantList
  rw [scored_widget]
  unfold relevantOfScored
  norm_num [List.insertionSort, List.orderedInsert, List.filter_cons]

theorem eval_widget_result :
    getRelevantMemories "widget" ["widget one", "widget two"] 1 = ["widget two"] := by
  unfold getRelevantMemories
  rw [if_neg (by decide), if_neg (by rw [tokenize_widget]; decide),
    if_pos (by rw [relevant_widget]; decide), relevant_widget]
  decide

theorem c1_tokens :
    tokenizeQuery "Tell me about the user\x27s job" = ["tell", "users", "job"] := by decide

theorem c1_score0 : scoreMemory ["tell", "users", "job"] "User likes coffee" 0 5 = 0 := by
  have h : lexicalScore ["tell", "users", "job"] "User likes coffee" = 0 := by decide
  unfold scoreMemory
  rw [h]
  norm_num

theorem c1_score1 :
    scoreMemory ["tell", "users", "job"] "User is a software engineer" 1 5 = 1 := by
  have h : lexicalScore ["tell", "users", "job"] "User is a software engineer" = 0 := by decide
  unfold scoreMemory
  rw [h]
  norm_num

theorem c1_score2 : scoreMemory ["tell", "users", "job"] "User lives in Paris" 2 5 = 2 := by
  have h : lexicalScore ["tell", "users", "job"] "User lives in Paris" = 0 := by decide
  unfold scoreMemory
  rw [h]
  norm_num

theorem c1_score3 :
    scoreMemory ["tell", "users", "job"] "User prefers concise answers" 3 5 = 3 := by
  have h : lexicalScore ["tell", "users", "job"] "User prefers concise answers" = 0 := by decide
  unfold scoreMemory
  rw [h]
  norm_num

theorem c1_score4 :
    scoreMemory ["tell", "users", "job"] "User dislikes spicy food" 4 5 = 4 := by
  have h : lexicalScore ["tell", "users", "job"] "User dislikes spicy food" = 0 := by decide
  unfold scoreMemory
  rw [h]
  norm_num

theorem c1_scored : scoredMemories ["tell", "users", "job"]
    ["User likes coffee", "User is a software engineer", "User lives in Paris",
     "User prefers concise answers", "User dislikes spicy food"]
    = [("User likes coffee", 0), ("User is a software engineer", 1),
       ("User lives in Paris", 2), ("User prefers concise answers", 3),
       ("User dislikes spicy food", 4)] := by
  unfold scoredMemories
  rw [show List.enum ["User likes coffee", "User is a software engineer", "User lives in Paris",
      "User prefers concise answers", "User dislikes spicy food"]
    = [(0, "User likes coffee"), (1, "User is a software engineer"), (2, "User lives in Paris"),
       (3, "User prefers concise answers"), (4, "User dislikes spicy food")] from by decide]
  rw [List.map_cons, List.map_cons, List.map_cons, List.map_cons, List.map_cons, List.map_nil]
  rw [show (["User likes coffee", "User is a software engineer", "User lives in Paris",
      "User prefers concise answers", "User dislikes spicy food"] : List String).length = 5
    from by decide]
  rw [c1_score0, c1_score1, c1_score2, c1_score3, c1_score4]

theorem c1_relevant : relevantList (tokenizeQuery "Tell me about the user\x27s job")
    ["User likes coffee", "User is a software engineer", "User lives in Paris",
     "User prefers concise answers", "User dislikes spicy food"] = [] := by
  rw [c1_tokens]
  unfold relevantList
  rw [c1_scored]
  unfold relevantOfScored
  norm_num [List.insertionSort, List.orderedInsert, List.filter_cons]

theorem eval_c1_result :
    getRelevantMemories "Tell me about the user\x27s job"
      ["User likes coffee", "User is a software engineer", "User lives in Paris",
       "User prefers concise answers", "User dislikes spicy food"] 5
    = ["User lives in Paris", "User prefers concise answers", "User dislikes spicy food"] := by
  unfold getRelevantMemories
  rw [if_neg (by decide), if_neg (by rw [c1_tokens]; decide),
    if_neg (by rw [c1_relevant]; decide)]
  decide

/-!  Claim theorems. -/

/-- C1 (counterexample): for the spec's concrete scenario — the five user
memories, `query = "Tell me about the user's job"`, `limit = 5` — the result
of `getRelevantMemories` does NOT contain `"User is a software engineer"`,
contrary to the claim. -/
theorem c1_counterexample :
    "User is a software engineer" ∉
      getRelevantMemories "Tell me about the user\x27s job"
        ["User likes coffee", "User is a software engineer", "User lives in Paris",
         "User prefers concise answers", "User dislikes spicy food"] 5 := by
  rw [eval_c1_result]
  decide

/-- C1 (amended): in the spec's concrete scenario the filtered query tokens
are `["tell", "users", "job"]` (`"about"` is a stop word and `"user's"`
collapses to `"users"`), none of which matches any memory, so every memory
scores at most its recency term (below the threshold 5), the above-threshold
list is empty, and the no-match fallback returns the last 3 memories in
original order. -/
theorem c1_amended_fallback :
    tokenizeQuery "Tell me about the user\x27s job" = ["tell", "users", "job"] ∧
    relevantList (tokenizeQuery "Tell me about the user\x27s job")
      ["User likes coffee", "User is a software engineer", "User lives in Paris",
       "User prefers concise answers", "User dislikes spicy food"] = [] ∧
    getRelevantMemories "Tell me about the user\x27s job"
      ["User likes coffee", "User is a software engineer", "User lives in Paris",
       "User prefers concise answers", "User dislikes spicy food"] 5
      = ["User lives in Paris", "User prefers concise answers", "User dislikes spicy food"] :=
  ⟨c1_tokens, c1_relevant, eval_c1_result⟩

/-- C2: for every query, memories list, and memory at 0-based position `i`,
when the filtered query-token list is non-empty, the computed score of that
memory equals: the sum over each query token of (2·len on an exact token
match, else len on a substring match, else 0 — the branches mutually
exclusive), multiplied by `(1 + matchCount * 0.2)` exactly when
`matchCount > 1`, plus the recency term `(i / N) * 5`. -/
theorem c2_score_formula (query : String) (memories : List String) (i : Nat)
    (hi : i < memories.length) (hq : tokenizeQuery query ≠ []) :
    scoreMemory (tokenizeQuery query) (memories.get ⟨i, hi⟩) i memories.length =
      (if 1 < specMatchCount (tokenizeQuery query) (memories.get ⟨i, hi⟩) then
        specLexScore (tokenizeQuery query) (memories.get ⟨i, hi⟩) *
          (1 + (specMatchCount (tokenizeQuery query) (memories.get ⟨i, hi⟩) : ℚ) * (0.2 : ℚ))
      else specLexScore (tokenizeQuery query) (memories.get ⟨i, hi⟩)) +
      ((i : ℚ) / (memories.length : ℚ)) * 5 := by
  unfold scoreMemory
  rw [lexicalScore_eq]

/-- C2 witness at `query = "widget"`, `memories = ["widget one"]`, `i = 0`. -/
theorem c2_score_formula_witness :
    scoreMemory (tokenizeQuery "widget") "widget one" 0 1 =
      (if 1 < specMatchCount (tokenizeQuery "widget") "widget one" then
        specLexScore (tokenizeQuery "widget") "widget one" *
          (1 + (specMatchCount (tokenizeQuery "widget") "widget one" : ℚ) * (0.2 : ℚ))
      else specLexScore (tokenizeQuery "widget") "widget one") +
      (((0 : Nat) : ℚ) / ((1 : Nat) : ℚ)) * 5 :=
  c2_score_formula "widget" ["widget one"] 0 (by decide) (by decide)

/-- C3: on the non-fallback path (query tokens non-empty and the
above-threshold list non-empty), every returned memory has a strictly
positive lexical contribution, i.e. some query token matched it exactly
or as a substring (the recency term alone stays below the threshold 5). -/
theorem c3_surfaced_has_lexical_match (query : String) (memories : List String)
    (limit : Int) (hq : tokenizeQuery query ≠ [])
    (hrel : relevantList (tokenizeQuery query) memories ≠ []) :
    ∀ m ∈ getRelevantMemories query memories limit,
      0 < specLexScore (tokenizeQuery query) m ∧
        ∃ w ∈ tokenizeQuery query, tokenMatches m w = true := by
  intro m hm
  have hbq : ¬ ((tokenizeQuery query).length = 0) :=
    fun h0 => hq (List.length_eq_zero.mp h0)
  have hbr : 0 < (relevantList (tokenizeQuery query) memories).length :=
    Nat.pos_of_ne_zero (fun h0 => hrel (List.length_eq_zero.mp h0))
  have hbm : ¬ (memories.length = 0) := by
    intro h0
    apply hrel
    rw [List.length_eq_zero.mp h0]
    rfl
  unfold getRelevantMemories at hm
  rw [if_neg hbm, if_neg hbq, if_pos hbr] at hm
  have hmem : m ∈ relevantList (tokenizeQuery query) memories := by
    unfold jsSliceZeroTo at hm
    split_ifs at hm <;> exact List.take_subset _ _ hm
  obtain ⟨s, hsmem, hs5⟩ := mem_relevantList _ _ _ hmem
  obtain ⟨-, i, hiN, hse⟩ := mem_scoredMemories _ _ _ hsmem
  have hse' : s = scoreMemory (tokenizeQuery query) m i memories.length := hse
  have hrec := recencyFactor_lt_five i memories.length hiN
  have hnz : specLexScore (tokenizeQuery query) m ≠ 0 := by
    intro h0
    have hlex0 := lexicalScore_eq_zero _ m h0
    rw [hse'] at hs5
    unfold scoreMemory at hs5
    rw [hlex0, zero_add] at hs5
    linarith
  exact ⟨lt_of_le_of_ne (specLexScore_nonneg _ _) (Ne.symm hnz),
    exists_match_of_specLexScore_ne_zero _ _ hnz⟩

/-- C3 witness at `query = "widget"`, `memories = ["widget one", "widget two"]`,
`limit = 1`, returned memory `"widget two"`. -/
theorem c3_surfaced_has_lexical_match_witness :
    0 < specLexScore (tokenizeQuery "widget") "widget two" ∧
      ∃ w ∈ tokenizeQuery "widget", tokenMatches "widget two" w = true :=
  c3_surfaced_has_lexical_match "widget" ["widget one", "widget two"] 1
    (by decide) (by rw [relevant_widget]; decide) "widget two"
    (by rw [eval_widget_result]; exact List.mem_cons_self _ _)

/-- C4: for a non-empty memory list and a positive limit, a query with zero
usable tokens returns exactly the last `min(limit, N)` memories in their
original relative order. -/
theorem c4_no_tokens_returns_tail (query : String) (memories : List String)
    (limit : Int) (hm : memories ≠ []) (hq : tokenizeQuery query = [])
    (hl : 0 < limit) :
    getRelevantMemories query memories limit =
      memories.drop (memories.length - min limit.toNat memories.length) := by
  unfold getRelevantMemories
  rw [if_neg (fun h0 => hm (List.length_eq_zero.mp h0)), if_pos (by rw [hq]; rfl)]
  unfold jsSliceFrom
  rw [if_pos (by omega)]
  congr 1
  omega

/-- C4 witness at `query = "the"` (a stop word), three memories, `limit = 2`. -/
theorem c4_no_tokens_returns_tail_witness :
    getRelevantMemories "the" ["aa", "bb", "cc"] 2 =
      List.drop (3 - min (Int.toNat 2) 3) ["aa", "bb", "cc"] :=
  c4_no_tokens_returns_tail "the" ["aa", "bb", "cc"] 2 (by decide) (by decide) (by decide)

/-- C5: for every positive limit the result has length at most `limit`,
except on the no-match fallback path (query tokens non-empty but no memory
above the threshold), where the length is exactly `min 3 N` regardless of
`limit`. -/
theorem c5_result_length_bound (query : String) (memories : List String)
    (limit : Int) (hl : 0 < limit) :
    (¬ (tokenizeQuery query ≠ [] ∧ relevantList (tokenizeQuery query) memories = []) →
      ((getRelevantMemories query memories limit).length : Int) ≤ limit) ∧
    ((tokenizeQuery query ≠ [] ∧ relevantList (tokenizeQuery query) memories = []) →
      (getRelevantMemories query memories limit).length = min 3 memories.length) := by
  unfold getRelevantMemories
  split_ifs with h1 h2 h3
  · constructor
    · intro _
      simp only [List.length_nil]
      omega
    · intro _
      simp [h1]
  · constructor
    · intro _
      unfold jsSliceFrom
      rw [if_pos (by omega), List.length_drop]
      omega
    · intro hc
      exact absurd (List.length_eq_zero.mp h2) hc.1
  · constructor
    · intro _
      unfold jsSliceZeroTo
      rw [if_neg (by omega), List.length_take]
      omega
    · intro hc
      rw [hc.2] at h3
      simp at h3
  · constructor
    · intro hcon
      exfalso
      apply hcon
      refine ⟨fun h0 => h2 (by rw [h0]; rfl), ?_⟩
      exact List.length_eq_zero.mp (by omega)
    · intro _
      unfold jsSliceFrom
      rw [if_pos (by omega), List.length_drop]
      omega

/-- C5 witness at `query = "widget"`, two memories, `limit = 1`
(non-fallback path, length bounded by the limit). -/
theorem c5_result_length_bound_witness :
    ((getRelevantMemories "widget" ["widget one", "widget two"] 1).length : Int) ≤ 1 :=
  (c5_result_length_bound "widget" ["widget one", "widget two"] 1 (by omega)).1
    (by intro hc; rw [relevant_widget] at hc; exact absurd hc.2 (by decide))

/-- C6 (counterexample): the query `"widget widget"` tokenizes to the same
token twice; the memory `"widget"` matches only one distinct query token,
yet the density bonus fires: the lexical score is `24 * 1.4 = 168/5`, not
the un-boosted `2·len + 2·len = 24` that the claim ("more than one
distinct token") would require. -/
theorem c6_counterexample :
    tokenizeQuery "widget widget" = ["widget", "widget"] ∧
    lexicalScore ["widget", "widget"] "widget" = 168 / 5 ∧
    (168 / 5 : ℚ) ≠ ("widget".length : ℚ) * 2 + ("widget".length : ℚ) * 2 := by
  refine ⟨by decide, ?_,
    by norm_num [show ("widget" : String).length = 6 from by decide]⟩
  norm_num +decide [lexicalScore, scoreLoop, scoreStep,
    show ("widget" : String).length = 6 from by decide]

/-- C6 (amended): the density-bonus multiplier `(1 + matchCount * 0.2)` is
applied exactly when the memory matches more than one query-token
OCCURRENCE (tokens counted with multiplicity, not deduplicated); in
particular a duplicated query token that matches does trigger the bonus. -/
theorem c6_amended_bonus_by_occurrences (qw : List String) (m : String) :
    lexicalScore qw m =
      if 1 < specMatchCount qw m then
        specLexScore qw m * (1 + (specMatchCount qw m : ℚ) * (0.2 : ℚ))
      else specLexScore qw m :=
  lexicalScore_eq qw m

/-- C7: with tied lexical scores the later memory wins via the recency
term: `getRelevantMemories "widget" ["widget one", "widget two"] 1`
returns `["widget two"]`, and the later memory's total score is strictly
larger. -/
theorem c7_tie_broken_by_recency :
    getRelevantMemories "widget" ["widget one", "widget two"] 1 = ["widget two"] ∧
    scoreMemory ["widget"] "widget one" 0 2 < scoreMemory ["widget"] "widget two" 1 2 := by
  refine ⟨eval_widget_result, ?_⟩
  rw [scoreMemory_w1, scoreMemory_w2]
  norm_num

/-- C8: every element of the result is an element of the original memory
list, and an empty memory list yields an empty result. -/
theorem c8_result_subset (query : String) (memories : List String) (limit : Int) :
    (∀ m ∈ getRelevantMemories query memories limit, m ∈ memories) ∧
    (memories = [] → getRelevantMemories query memories limit = []) := by
  constructor
  · intro m hm
    unfold getRelevantMemories at hm
    split_ifs at hm with h1 h2 h3
    · simp at hm
    · unfold jsSliceFrom at hm
      split_ifs at hm <;> exact List.drop_subset _ _ hm
    · have hmem : m ∈ relevantList (tokenizeQuery query) memories := by
        unfold jsSliceZeroTo at hm
        split_ifs at hm <;> exact List.take_subset _ _ hm
      obtain ⟨s, hsmem, -⟩ := mem_relevantList _ _ _ hmem
      exact (mem_scoredMemories _ _ _ hsmem).1
    · unfold jsSliceFrom at hm
      split_ifs at hm <;> exact List.drop_subset _ _ hm
  · intro h
    subst h
    rfl

/-- C8 witness: the returned memory `"widget two"` is an element of the
original list. -/
theorem c8_result_subset_witness :
    "widget two" ∈ (["widget one", "widget two"] : List String) :=
  (c8_result_subset "widget" ["widget one", "widget two"] 1).1 "widget two"
    (by rw [eval_widget_result]; exact List.mem_cons_self _ _)

/-- C9: the ranker is total — the fault-checked variant (whose only fault
point is the division `index / memories.length` in the recency term)
always returns `some` of the plain result: the zero-divisor case is
unreachable because the empty-memories case returns early. -/
theorem c9_total_no_division_fault (query : String) (memories : List String)
    (limit : Int) :
    getRelevantMemoriesChecked query memories limit =
      some (getRelevantMemories query memories limit) := by
  unfold getRelevantMemoriesChecked getRelevantMemories
  by_cases h1 : memories.length = 0
  · simp [h1]
  · by_cases h2 : (tokenizeQuery query).length = 0
    · simp [h1, h2]
    · simp only [if_neg h1, if_neg h2]
      have hmap : mapOrNone
          (fun p => Option.map (fun s => (p.2, s))
            (scoreMemoryChecked (tokenizeQuery query) p.2 p.1 memories.length))
          memories.enum
          = some (scoredMemories (tokenizeQuery query) memories) := by
        unfold scoredMemories
        apply mapOrNone_eq_map
        intro p hp
        unfold scoreMemoryChecked divChecked scoreMemory
        rw [if_neg (Nat.cast_ne_zero.mpr h1)]
        rfl
      rw [hmap]
      rfl

/-- C10: with `limit = 0` and a query with zero usable tokens, the whole
memory list is returned unchanged (`slice(-0)` is `slice(0)`), so a
non-positive limit yields a result longer than the limit. -/
theorem c10_zero_limit_returns_all (query : String) (memories : List String)
    (hm : memories ≠ []) (hq : tokenizeQuery query = []) :
    getRelevantMemories query memories 0 = memories ∧ 0 < memories.length := by
  constructor
  · unfold getRelevantMemories
    rw [if_neg (fun h0 => hm (List.length_eq_zero.mp h0)), if_pos (by rw [hq]; rfl)]
    unfold jsSliceFrom
    rw [if_neg (by omega)]
    rw [show (min (-(0 : Int)) (memories.length : Int)).toNat = 0 from by omega]
    exact List.drop_zero memories
  · exact List.length_pos.mpr hm

/-- C10 witness at `query = ""`, one memory. -/
theorem c10_zero_limit_returns_all_witness :
    getRelevantMemories "" ["only memory"] 0 = ["only memory"] ∧
      0 < (["only memory"] : List String).length :=
  c10_zero_limit_returns_all "" ["only memory"] (by decide) (by decide)
